import Mathlib

/-!
Shallow embedding of the tft-core gateway (Go sources) for checking the
specification's claims.  The counter store (Redis), the durable store
(PostgreSQL) and the upstream HTTP client are modelled as explicit state /
environment values; the store calls themselves are modelled error-free, as
the claims under study assume no transport error.  Real time (TTL expiry,
the 150 ms inter-lookup delay, durable-row freshness) is not modelled:
TTLs are recorded as written, and durable rows are read back as fresh.
-/

namespace TftCore

/-! ## Counter store and rate limiter (src/internal/ratelimiter.go)

The counter store models Redis INCR / EXPIRE: `counts` holds the integer at
each key (absent keys read 0, as INCR on a missing key yields 1), `ttls`
records the expiry installed by EXPIRE. -/

structure CounterStore where
  counts : String → Nat
  ttls : String → Option Nat

/-- One admission rule, Go `RateLimit` with `requests int; window time.Duration`.
The window is kept in integer seconds, which is how the bucket key is built. -/
structure RateLimit where
  requests : Nat
  windowSecs : Nat
deriving DecidableEq

/-- Go `riotRateLimits`: 20 requests / 1 s and 100 requests / 120 s. -/
def riotRateLimits : List RateLimit := [⟨20, 1⟩, ⟨100, 120⟩]

/-- Bucket key, Go `fmt.Sprintf("%s:%s:%d", rl.prefix, key, int(limit.window.Seconds()))`. -/
def bucketKey (pfx key : String) (l : RateLimit) : String :=
  pfx ++ ":" ++ key ++ ":" ++ toString l.windowSecs

/-- Go `RateLimiter.checkLimit`: INCR the bucket, EXPIRE it when the counter
was just created, and admit iff the post-increment count is at most the
rule's capacity. -/
def checkLimit (st : CounterStore) (pfx key : String) (l : RateLimit) :
    Bool × CounterStore :=
  let k := bucketKey pfx key l
  let c := st.counts k + 1
  let st1 : CounterStore :=
    { counts := fun k2 => if k2 = k then c else st.counts k2
      ttls := if c = 1 then (fun k2 => if k2 = k then some l.windowSecs else st.ttls k2)
              else st.ttls }
  (decide (c ≤ l.requests), st1)

/-- Go `RateLimiter.Allow` over a rule list: evaluate the rules in order,
stop (returning denied) at the first rule whose bucket exceeds capacity. -/
def allowGo (pfx key : String) : List RateLimit → CounterStore → Bool × CounterStore
  | [], st => (true, st)
  | l :: rest, st =>
    let r := checkLimit st pfx key l
    if r.1 then allowGo pfx key rest r.2 else (false, r.2)

/-- Go `RateLimiter.Allow`: the configured rule list is `riotRateLimits`. -/
def allow (st : CounterStore) (pfx key : String) : Bool × CounterStore :=
  allowGo pfx key riotRateLimits st

/-! ## Data model (src/unnamed/part_004) -/

/-- Go `MiniSeries`. -/
structure MiniSeries where
  target : Nat
  wins : Nat
  losses : Nat
  progress : String
deriving DecidableEq

/-- Go `LeagueEntry` (the part_004 variant carrying the `puuid` field, which
is the one `src/internal/riotapi.go` reads and writes). -/
structure LeagueEntry where
  leagueId : String
  puuid : String
  summonerId : String
  summonerName : String
  queueType : String
  tier : String
  rank : String
  leaguePoints : Nat
  wins : Nat
  losses : Nat
  hotStreak : Bool
  veteran : Bool
  freshBlood : Bool
  inactive : Bool
  miniSeries : Option MiniSeries
deriving DecidableEq

/-- Go `ChallengerLeague` / `GrandmasterLeague` / `MasterLeague`: the three
struct types are field-for-field identical, so they share one embedding. -/
structure HighTierLeague where
  leagueId : String
  entries : List LeagueEntry
  tier : String
  name : String
  queue : String
deriving DecidableEq

/-- Go `LeagueEntriesResponse`.  `Page` is an `int` that handlers coerce to
a positive value, embedded as `Nat`. -/
structure LeagueEntriesResponse where
  entries : List LeagueEntry
  page : Nat
  tier : String
  division : String
  hasMore : Bool
deriving DecidableEq

/-- Go `AccountData`. -/
structure AccountData where
  puuid : String
  gameName : String
  tagLine : String
deriving DecidableEq

/-- Go `SummonerNameTask`, the NameFetch envelope on the bus. -/
structure SummonerNameTask where
  puuid : String
  region : String
deriving DecidableEq

/-- A league entry with every field zeroed, used to build concrete inputs. -/
def baseEntry : LeagueEntry :=
  ⟨"", "", "", "", "", "", "", 0, 0, 0, false, false, false, false, none⟩

/-! ## Two-tier name cache (src/unnamed/part_002 `CacheManager` with
`redis + database`, and src/internal/ratelimiter.go `DatabaseManager`)

`redisNames`/`redisTtl` model the fast tier (keyed by the full Redis key),
`db` models the `summoner_cache` table keyed by PUUID.  Durable rows are
read back as fresh (the 7-day freshness window is a time property outside
the model). -/

/-- Go `summoner_cache` row (`SummonerCacheEntry` columns written by the
upsert). -/
structure DbRow where
  gameName : String
  tagLine : String
  summonerId : String
  region : String
deriving DecidableEq

structure NameState where
  cacheEnabled : Bool
  dbEnabled : Bool
  redisNames : String → Option String
  redisTtl : String → Option Nat
  db : String → Option DbRow

/-- Go `CacheManager.Key`: fold the parts onto the literal root `tft` with
`:` separators. -/
def cmKey (parts : List String) : String :=
  parts.foldl (fun k p => k ++ ":" ++ p) "tft"

/-- The fast-tier key for a summoner name, `cm.Key("summoner_name", puuid)`. -/
def nameKey (puuid : String) : String := cmKey ["summoner_name", puuid]

/-- A Redis `Set` on the name key with a TTL in seconds. -/
def writeRedisName (ns : NameState) (puuid value : String) (ttlSecs : Nat) : NameState :=
  { ns with
    redisNames := fun k => if k = nameKey puuid then some value else ns.redisNames k
    redisTtl := fun k => if k = nameKey puuid then some ttlSecs else ns.redisTtl k }

/-- Go `DatabaseManager.GetSummonerName`: select the row by PUUID and render
it as `game_name#tag_line` (rows modelled as fresh). -/
def dbGetSummonerName (ns : NameState) (puuid : String) : Option String :=
  match ns.db puuid with
  | some row => some (row.gameName ++ "#" ++ row.tagLine)
  | none => none

/-- Go `DatabaseManager.SetSummonerName`: upsert keyed by PUUID; a no-op
when the database is disabled. -/
def dbSetSummonerName (ns : NameState) (puuid gameName tagLine summonerId region : String) :
    NameState :=
  if ns.dbEnabled then
    { ns with
      db := fun p => if p = puuid then some ⟨gameName, tagLine, summonerId, region⟩ else ns.db p }
  else ns

/-- Go `CacheManager.GetSummonerName`: try Redis first, rejecting empty
values and the literal sentinel "Loading..."; then fall back to the durable
tier, repopulating the fast tier (24 h TTL) on a durable hit.  Returns the
name and the possibly updated state. -/
def getSummonerName (ns : NameState) (puuid : String) : Option String × NameState :=
  let redisVal : Option String :=
    if ns.cacheEnabled then
      match ns.redisNames (nameKey puuid) with
      | some n => if n ≠ "" ∧ n ≠ "Loading..." then some n else none
      | none => none
    else none
  match redisVal with
  | some n => (some n, ns)
  | none =>
    if ns.dbEnabled then
      match dbGetSummonerName ns puuid with
      | some n =>
        if n ≠ "" then
          (some n, if ns.cacheEnabled then writeRedisName ns puuid n 86400 else ns)
        else (none, ns)
      | none => (none, ns)
    else (none, ns)

/-- Go `splitName`'s scan for the rightmost `#`: returns the characters
before and after the last `#`, or `none` when the string has no `#`. -/
def splitLastHash : List Char → Option (List Char × List Char)
  | [] => none
  | c :: rest =>
    match splitLastHash rest with
    | some (g, t) => some (c :: g, t)
    | none => if c = '#' then some ([], rest) else none

/-- Go `splitName`: `[name[:i], name[i+1:]]` at the last `#`, else `[name]`. -/
def splitName (name : String) : List String :=
  match splitLastHash name.data with
  | some (g, t) => [String.mk g, String.mk t]
  | none => [name]

/-- Go `parseName`: a two-part split yields (game, tag); otherwise the whole
string is the game name and the tag defaults to the literal "BR1". -/
def parseName (fullName : String) : String × String :=
  match splitName fullName with
  | [g, t] => (g, t)
  | _ => (fullName, "BR1")

/-- Go `CacheManager.SetSummonerName`: write the fast tier with a 24 h TTL
(86400 s) when caching is enabled, then upsert the durable tier with the
parsed (game, tag) pair, empty summoner id and the literal region "BR1". -/
def setSummonerName (ns : NameState) (puuid name : String) : NameState :=
  let ns1 := if ns.cacheEnabled then writeRedisName ns puuid name 86400 else ns
  let gt := parseName name
  dbSetSummonerName ns1 puuid gt.1 gt.2 "" "BR1"

/-- The environment-sourced configuration (src/internal/config.go); only the
home region (`RIOT_REGION`, default "BR1") matters for the claims here. -/
structure Config where
  riotRegion : String

/-- Modelled from the spec (section 4.3 `set_name`): the durable-tier tag is
said to default to the configured home region code when the name has no
`#`.  This definition follows the spec's words; the source's `parseName`
(above) uses the literal "BR1" instead and never consults the
configuration. -/
def parseNameSpec (cfg : Config) (fullName : String) : String × String :=
  match splitName fullName with
  | [g, t] => (g, t)
  | _ => (fullName, cfg.riotRegion)

/-! ## Name-fetch worker (src/internal/nats.go) -/

/-- Go `buildFullName`: `game#tag`, omitting `#tag` when the tag is empty. -/
def buildFullName (a : AccountData) : String :=
  if a.tagLine ≠ "" then a.gameName ++ "#" ++ a.tagLine else a.gameName

/-- Go `cacheSummonerName`: write through `SetSummonerName` when the fetched
game name is non-empty, otherwise drop. -/
def cacheSummonerName (a : AccountData) (puuid : String) (ns : NameState) : NameState :=
  if a.gameName ≠ "" then setSummonerName ns puuid (buildFullName a) else ns

/-- Go `shouldSkipTask`: skip when the cache already holds a non-empty name.
The lookup itself may repopulate the fast tier, hence the returned state. -/
def shouldSkipTask (puuid : String) (ns : NameState) : Bool × NameState :=
  let r := getSummonerName ns puuid
  (decide ((r.1.getD "") ≠ ""), r.2)

/-- Go `processSummonerNameTask` on an already-decoded envelope (decode
errors drop the message, leaving every store untouched).  `acct` is
`GetAccountByPUUID`, stable across the two applications the idempotency
claim compares; `none` is a fetch error (log and drop). -/
def processSummonerNameTask (acct : String → Option AccountData)
    (task : SummonerNameTask) (ns : NameState) : NameState :=
  let r := shouldSkipTask task.puuid ns
  if r.1 then r.2
  else
    match acct task.puuid with
    | none => r.2
    | some a => cacheSummonerName a task.puuid r.2

/-! ## Enrichment engine (src/internal/riotapi.go `enrichLeagueEntriesNames`)

The pass truncates to the top 10, then walks the rows threading the name
cache, the `lookups` counter and the fire-and-forget effects.  Each row
also yields a `RowAction` record of what was done for it.  Note that the
source spawns `go fetchNameAsyncViaPUUID` (a direct fetch goroutine) and
never publishes a NameFetch task on the bus: `PublishSummonerNameTask`
exists in nats.go but has no caller, so `busPublished` can only stay empty.
The 150 ms inter-lookup sleep is a real-time effect outside the model. -/

/-- Go `fetchNameDirectlyViaPUUID`: resolve a PUUID through the Account API
(`acct` is `GetAccountByPUUID`, `none` meaning an error), returning "" on
error or an empty game name. -/
def fetchNameDirectlyViaPUUID (acct : String → Option AccountData) (puuid : String) : String :=
  match acct puuid with
  | none => ""
  | some a => if a.gameName = "" then "" else buildFullName a

/-- Environment of one enrichment pass: the account resolver and whether
`c.NATSClient != nil`. -/
structure EnrichEnv where
  acct : String → Option AccountData
  natsAvailable : Bool

/-- What the pass did for one row. -/
structure RowAction where
  cacheLookup : Bool
  inlineLookup : Bool
  asyncFetch : Bool
  busPublish : Bool
deriving DecidableEq

/-- The empty action: the row was skipped without touching any store. -/
def RowAction.noAction : RowAction := ⟨false, false, false, false⟩

/-- State threaded through the enrichment loop. -/
structure EnrichSt where
  ns : NameState
  lookups : Nat
  asyncSpawned : List String
  busPublished : List String

/-- One iteration of the Go `for i := range entries` loop body. -/
def enrichStep (env : EnrichEnv) (st : EnrichSt) (e : LeagueEntry) :
    LeagueEntry × EnrichSt × RowAction :=
  if e.summonerName ≠ "" ∧ e.summonerName ≠ "Unknown" then
    -- already a real name (the sentinel "Unknown" is not one): continue
    (e, st, RowAction.noAction)
  else if e.puuid = "" then
    -- Go logs "Empty PUUID" and continues; the name is left as it was
    (e, st, RowAction.noAction)
  else
    let r := getSummonerName st.ns e.puuid
    let st1 : EnrichSt := { st with ns := r.2 }
    if (r.1.getD "") ≠ "" then
      -- cache hit: assign and continue
      ({ e with summonerName := r.1.getD "" }, st1, ⟨true, false, false, false⟩)
    else if st1.lookups ≥ 10 then
      -- lookup limit reached: spawn the async direct-fetch goroutine
      if env.natsAvailable then
        (e, { st1 with asyncSpawned := st1.asyncSpawned ++ [e.puuid] }, ⟨true, false, true, false⟩)
      else
        (e, st1, ⟨true, false, false, false⟩)
    else
      -- inline lookup via the Account API (after a 150 ms sleep, not modelled)
      let name := fetchNameDirectlyViaPUUID env.acct e.puuid
      if name ≠ "" then
        ({ e with summonerName := name },
         { st1 with ns := setSummonerName st1.ns e.puuid name, lookups := st1.lookups + 1 },
         ⟨true, true, false, false⟩)
      else if env.natsAvailable then
        (e, { st1 with lookups := st1.lookups + 1, asyncSpawned := st1.asyncSpawned ++ [e.puuid] },
         ⟨true, true, true, false⟩)
      else
        (e, { st1 with lookups := st1.lookups + 1 }, ⟨true, true, false, false⟩)

/-- The enrichment loop over the (already truncated) rows. -/
def enrichGo (env : EnrichEnv) : List LeagueEntry → EnrichSt →
    List LeagueEntry × List RowAction × EnrichSt
  | [], st => ([], [], st)
  | e :: rest, st =>
    let r := enrichStep env st e
    let rec2 := enrichGo env rest r.2.1
    (r.1 :: rec2.1, r.2.2 :: rec2.2.1, rec2.2.2)

/-- Result of one pass: the rows served, the per-row actions, the final
`lookups` counter, the cache state and the fire-and-forget effect logs. -/
structure EnrichResult where
  entries : List LeagueEntry
  actions : List RowAction
  lookups : Nat
  ns : NameState
  asyncSpawned : List String
  busPublished : List String

/-- Go `enrichLeagueEntriesNames`: truncate to the top `maxEntries = 10`
rows, then run the loop with `lookups = 0`. -/
def enrichLeagueEntriesNames (env : EnrichEnv) (ns : NameState)
    (entries : List LeagueEntry) : EnrichResult :=
  let truncated := if entries.length > 10 then entries.take 10 else entries
  let r := enrichGo env truncated ⟨ns, 0, [], []⟩
  ⟨r.1, r.2.1, r.2.2.lookups, r.2.2.ns, r.2.2.asyncSpawned, r.2.2.busPublished⟩

/-! ## League fetchers (src/internal/riotapi.go)

Each fetcher reads its 30-minute league cache slot first; on a miss it
fetches upstream (`none` is a request or unmarshal error).  The generic
JSON cache and the upstream payload are environment values; the write-back
of the served value is not separately recorded (the cached value is the
response itself). -/

/-- Environment of one high-tier league request. -/
structure HighTierEnv where
  cached : Option HighTierLeague
  upstream : Option HighTierLeague
  env : EnrichEnv
  ns : NameState

/-- Go `if len(entries) > 10 ... entries[:10]`, as used in every high-tier
path. -/
def truncateTop10 (es : List LeagueEntry) : List LeagueEntry :=
  if es.length > 10 then es.take 10 else es

/-- Common body of Go `GetChallengerLeague` / `GetGrandmasterLeague` /
`GetMasterLeague` (three copies in the source differing only in the tier
constant, the URL and the cache slot): truncate to 10, stamp every row's
tier with the enclosing constant, enrich, serve (and cache) the result. -/
def getHighTierLeague (e : HighTierEnv) (tierConst : String) : Option HighTierLeague :=
  match e.cached with
  | some league =>
    let stamped := (truncateTop10 league.entries).map (fun x => { x with tier := tierConst })
    some { league with entries := (enrichLeagueEntriesNames e.env e.ns stamped).entries }
  | none =>
    match e.upstream with
    | none => none
    | some league =>
      let stamped := (truncateTop10 league.entries).map (fun x => { x with tier := tierConst })
      some { league with entries := (enrichLeagueEntriesNames e.env e.ns stamped).entries }

/-- Go `GetChallengerLeague`. -/
def GetChallengerLeague (e : HighTierEnv) : Option HighTierLeague :=
  getHighTierLeague e "CHALLENGER"

/-- Go `GetGrandmasterLeague`. -/
def GetGrandmasterLeague (e : HighTierEnv) : Option HighTierLeague :=
  getHighTierLeague e "GRANDMASTER"

/-- Go `GetMasterLeague`. -/
def GetMasterLeague (e : HighTierEnv) : Option HighTierLeague :=
  getHighTierLeague e "MASTER"

/-- Environment of one paged-entries request. -/
structure EntriesEnv where
  cached : Option LeagueEntriesResponse
  upstream : Option (List LeagueEntry)
  env : EnrichEnv
  ns : NameState

/-- Go `GetLeagueEntries`: on a cache hit, re-enrich the cached rows and
serve the cached page fields; on a miss, fetch the page, enrich the rows
(note the enrichment helper truncates them to 10) and compute
`HasMore: len(entries) == 200` on the rows that remain. -/
def GetLeagueEntries (e : EntriesEnv) (tier division : String) (page : Nat) :
    Option LeagueEntriesResponse :=
  match e.cached with
  | some c =>
    some { c with entries := (enrichLeagueEntriesNames e.env e.ns c.entries).entries }
  | none =>
    match e.upstream with
    | none => none
    | some es =>
      let enriched := (enrichLeagueEntriesNames e.env e.ns es).entries
      some { entries := enriched, page := page, tier := tier, division := division,
             hasMore := enriched.length == 200 }

/-! ## Concrete inputs for witnesses and counterexamples -/

/-- A counter store with every bucket at 19 except none: built so the 1 s
bucket lands exactly at 20 and the 120 s bucket exactly at 100. -/
def stAtCapacity : CounterStore :=
  { counts := fun k => if k = bucketKey "tft:ratelimit" "summoner" ⟨20, 1⟩ then 19 else 99
    ttls := fun _ => none }

/-- A counter store whose 1 s bucket lands at 21 (capacity + 1). -/
def stOverCapacity : CounterStore :=
  { counts := fun k => if k = bucketKey "tft:ratelimit" "summoner" ⟨20, 1⟩ then 20 else 0
    ttls := fun _ => none }

/-- A name-cache state with both tiers empty and enabled. -/
def nsEmpty : NameState :=
  { cacheEnabled := true, dbEnabled := true
    redisNames := fun _ => none, redisTtl := fun _ => none, db := fun _ => none }

/-- A name-cache state with both tiers disabled: every lookup misses. -/
def nsOff : NameState :=
  { cacheEnabled := false, dbEnabled := false
    redisNames := fun _ => none, redisTtl := fun _ => none, db := fun _ => none }

/-- An enrichment environment whose upstream always fails and whose bus
client is present. -/
def envFailing : EnrichEnv := { acct := fun _ => none, natsAvailable := true }

/-- Eleven rows with distinct non-empty PUUIDs and no name: the spillover
scenario of spec S8. -/
def entriesEleven : List LeagueEntry :=
  (List.range 11).map (fun i => { baseEntry with puuid := "puuid" ++ toString i })

/-- One row with an empty PUUID and no name. -/
def rowNoPuuid : LeagueEntry := baseEntry

/-- A 200-row upstream page, every row already carrying a name. -/
def pageOf200 : List LeagueEntry :=
  List.replicate 200 { baseEntry with summonerName := "Player", puuid := "p" }

/-- Entries environment for the 200-row page: cold cache, upstream serves
the full page. -/
def envPage200 : EntriesEnv :=
  { cached := none, upstream := some pageOf200, env := envFailing, ns := nsOff }

/-- High-tier environment with a cached league of 15 unstamped rows. -/
def envCached15 : HighTierEnv :=
  { cached := some ⟨"lid", List.replicate 15 { baseEntry with summonerName := "Player" }, "", "nm", "q"⟩
    upstream := none, env := envFailing, ns := nsOff }

/-- The account resolver that answers the pathological display name
"Loading..." with no tag. -/
def acctLoading : String → Option AccountData :=
  fun _ => some ⟨"P", "Loading...", ""⟩

/-- The account resolver answering a normal name. -/
def acctAlice : String → Option AccountData :=
  fun _ => some ⟨"P", "Alice", "BR1"⟩

/-- A name-fetch envelope for PUUID "P". -/
def taskP : SummonerNameTask := ⟨"P", "BR1"⟩

/-- A row already holding the sentinel "Loading..." in its name slot. -/
def rowLoading : LeagueEntry := { baseEntry with summonerName := "Loading...", puuid := "x" }

/-- The league served from `envCached15`: the 15 cached rows truncated to 10
and stamped CHALLENGER. -/
def chal15 : HighTierLeague :=
  ⟨"lid", List.replicate 10 { baseEntry with summonerName := "Player", tier := "CHALLENGER" },
   "", "nm", "q"⟩

/-! ## Rate limiter lemmas -/

theorem bucketKey_ne (pfx key : String) :
    bucketKey pfx key ⟨20, 1⟩ ≠ bucketKey pfx key ⟨100, 120⟩ := by
  intro h
  have h2 := congrArg String.length h
  simp only [bucketKey, String.length_append] at h2
  have e1 : (toString (1 : Nat)).length = 1 := by decide
  have e120 : (toString (120 : Nat)).length = 3 := by decide
  rw [e1, e120] at h2
  omega

/-- Evaluation of `allow` on the dual-window configuration: the two bucket
post-increment values decide the outcome, and the second bucket is read
after the first increment but is unaffected by it (distinct keys). -/
theorem allow_eval (st : CounterStore) (pfx key : String) :
    (allow st pfx key).1 =
      (decide (st.counts (bucketKey pfx key ⟨20, 1⟩) + 1 ≤ 20) &&
       decide (st.counts (bucketKey pfx key ⟨100, 120⟩) + 1 ≤ 100)) := by
  have hne : bucketKey pfx key ⟨100, 120⟩ ≠ bucketKey pfx key ⟨20, 1⟩ :=
    fun h => bucketKey_ne pfx key h.symm
  by_cases h1 : st.counts (bucketKey pfx key ⟨20, 1⟩) + 1 ≤ 20 <;>
  by_cases h2 : st.counts (bucketKey pfx key ⟨100, 120⟩) + 1 ≤ 100 <;>
  simp [allow, allowGo, checkLimit, riotRateLimits, hne, h1, h2]

/-- C1: the rate limiter admits a key iff, for every configured rule, the
post-increment counter value of that rule's bucket is at most the rule's
capacity; landing exactly at capacity on every rule is admitted, and
landing at capacity + 1 on any rule is denied. -/
theorem allow_iff_within_capacity (st : CounterStore) (pfx key : String) :
    ((allow st pfx key).1 = true ↔
      ∀ l ∈ riotRateLimits, st.counts (bucketKey pfx key l) + 1 ≤ l.requests) ∧
    ((∀ l ∈ riotRateLimits, st.counts (bucketKey pfx key l) + 1 = l.requests) →
      (allow st pfx key).1 = true) ∧
    (∀ l ∈ riotRateLimits, st.counts (bucketKey pfx key l) + 1 = l.requests + 1 →
      (allow st pfx key).1 = false) := by
  have hiff : (allow st pfx key).1 = true ↔
      ∀ l ∈ riotRateLimits, st.counts (bucketKey pfx key l) + 1 ≤ l.requests := by
    rw [allow_eval]
    simp [riotRateLimits]
  refine ⟨hiff, fun h => hiff.mpr (fun l hl => Nat.le_of_eq (h l hl)), ?_⟩
  intro l hl hv
  cases hb : (allow st pfx key).1
  · rfl
  · exfalso
    have := hiff.mp hb l hl
    omega

/-- Witness for C1: with the 1 s bucket at 19 and the 120 s bucket at 99
the call lands exactly at each capacity and is admitted; with the 1 s
bucket at 20 the call lands at 21 and is denied. -/
theorem allow_iff_within_capacity_witness :
    ((∀ l ∈ riotRateLimits,
        stAtCapacity.counts (bucketKey "tft:ratelimit" "summoner" l) + 1 = l.requests) ∧
      (allow stAtCapacity "tft:ratelimit" "summoner").1 = true) ∧
    ((⟨20, 1⟩ : RateLimit) ∈ riotRateLimits ∧
      stOverCapacity.counts (bucketKey "tft:ratelimit" "summoner" ⟨20, 1⟩) + 1 = 20 + 1 ∧
      (allow stOverCapacity "tft:ratelimit" "summoner").1 = false) := by
  refine ⟨⟨by decide, ?_⟩, by decide, by decide, ?_⟩
  · exact (allow_iff_within_capacity stAtCapacity "tft:ratelimit" "summoner").2.1 (by decide)
  · exact (allow_iff_within_capacity stOverCapacity "tft:ratelimit" "summoner").2.2
      ⟨20, 1⟩ (by decide) (by decide)

/-- C4: when the first rule's post-increment count strictly exceeds its
capacity, the decision is denied and the second rule's bucket is not
incremented (neither its count nor its TTL changes). -/
theorem allow_denied_stops (st : CounterStore) (pfx key : String)
    (h : 20 < st.counts (bucketKey pfx key ⟨20, 1⟩) + 1) :
    (allow st pfx key).1 = false ∧
    (allow st pfx key).2.counts (bucketKey pfx key ⟨100, 120⟩) =
      st.counts (bucketKey pfx key ⟨100, 120⟩) ∧
    (allow st pfx key).2.ttls (bucketKey pfx key ⟨100, 120⟩) =
      st.ttls (bucketKey pfx key ⟨100, 120⟩) := by
  have hne : bucketKey pfx key ⟨100, 120⟩ ≠ bucketKey pfx key ⟨20, 1⟩ :=
    fun hh => bucketKey_ne pfx key hh.symm
  have h1 : ¬ (st.counts (bucketKey pfx key ⟨20, 1⟩) + 1 ≤ 20) := by omega
  have hc1 : ¬ (st.counts (bucketKey pfx key ⟨20, 1⟩) + 1 = 1) := by omega
  simp [allow, allowGo, checkLimit, riotRateLimits, h1, hne, hc1]

/-- Witness for C4: a store whose 1 s bucket is at 20 denies the call and
leaves the 120 s bucket untouched. -/
theorem allow_denied_stops_witness :
    20 < stOverCapacity.counts (bucketKey "tft:ratelimit" "summoner" ⟨20, 1⟩) + 1 ∧
    ((allow stOverCapacity "tft:ratelimit" "summoner").1 = false ∧
      (allow stOverCapacity "tft:ratelimit" "summoner").2.counts
          (bucketKey "tft:ratelimit" "summoner" ⟨100, 120⟩) =
        stOverCapacity.counts (bucketKey "tft:ratelimit" "summoner" ⟨100, 120⟩) ∧
      (allow stOverCapacity "tft:ratelimit" "summoner").2.ttls
          (bucketKey "tft:ratelimit" "summoner" ⟨100, 120⟩) =
        stOverCapacity.ttls (bucketKey "tft:ratelimit" "summoner" ⟨100, 120⟩)) :=
  ⟨by decide, allow_denied_stops stOverCapacity "tft:ratelimit" "summoner" (by decide)⟩

/-! ## Enrichment lemmas -/

/-- The loop body never touches a row's tier field. -/
theorem enrichStep_entry_tier (env : EnrichEnv) (st : EnrichSt) (e : LeagueEntry) :
    ((enrichStep env st e).1).tier = e.tier := by
  simp only [enrichStep]
  repeat' split <;> try rfl

/-- The `lookups` counter advances exactly when the row's step did an
inline lookup (it is incremented in both its success and failure branch). -/
theorem enrichStep_lookups (env : EnrichEnv) (st : EnrichSt) (e : LeagueEntry) :
    (enrichStep env st e).2.1.lookups =
      st.lookups + (if ((enrichStep env st e).2.2).inlineLookup then 1 else 0) := by
  simp only [enrichStep]
  repeat' split
  all_goals (try rfl)
  all_goals simp_all [RowAction.noAction]

/-- A row already holding a name other than "" and "Unknown" is skipped
outright: no state change and an empty action record. -/
theorem enrichStep_skip (env : EnrichEnv) (st : EnrichSt) (e : LeagueEntry)
    (h1 : e.summonerName ≠ "") (h2 : e.summonerName ≠ "Unknown") :
    enrichStep env st e = (e, st, RowAction.noAction) := by
  unfold enrichStep
  rw [if_pos ⟨h1, h2⟩]

theorem enrichGo_length (env : EnrichEnv) :
    ∀ (l : List LeagueEntry) (st : EnrichSt),
      (enrichGo env l st).1.length = l.length ∧
      (enrichGo env l st).2.1.length = l.length
  | [], _ => ⟨rfl, rfl⟩
  | e :: rest, st => by
    have ih := enrichGo_length env rest (enrichStep env st e).2.1
    simp [enrichGo, ih.1, ih.2]

theorem enrichGo_tier_map (env : EnrichEnv) :
    ∀ (l : List LeagueEntry) (st : EnrichSt),
      (enrichGo env l st).1.map (fun x => x.tier) = l.map (fun x => x.tier)
  | [], _ => rfl
  | e :: rest, st => by
    have ih := enrichGo_tier_map env rest (enrichStep env st e).2.1
    simp [enrichGo, ih, enrichStep_entry_tier]

theorem enrichGo_lookups (env : EnrichEnv) :
    ∀ (l : List LeagueEntry) (st : EnrichSt),
      (enrichGo env l st).2.2.lookups =
        st.lookups + (enrichGo env l st).2.1.countP (fun a => a.inlineLookup)
  | [], _ => by simp [enrichGo]
  | e :: rest, st => by
    have ih := enrichGo_lookups env rest (enrichStep env st e).2.1
    have hs := enrichStep_lookups env st e
    simp only [enrichGo, List.countP_cons]
    rw [ih, hs]
    by_cases hb : ((enrichStep env st e).2.2).inlineLookup
    · simp only [hb, if_true]
      omega
    · simp only [hb, if_false]
      omega

/-- Rows surviving the skip condition at any position keep their slot. -/
theorem enrichGo_skip_get (env : EnrichEnv) :
    ∀ (l : List LeagueEntry) (st : EnrichSt) (i : Nat) (e : LeagueEntry),
      l[i]? = some e → e.summonerName ≠ "" → e.summonerName ≠ "Unknown" →
      (enrichGo env l st).1[i]? = some e ∧
      (enrichGo env l st).2.1[i]? = some RowAction.noAction
  | [], _, i, e => by intro h; simp at h
  | e0 :: rest, st, 0, e => by
    intro h h1 h2
    have he : e0 = e := by simpa using h
    rw [← he] at h1 h2 ⊢
    simp [enrichGo, enrichStep_skip env st e0 h1 h2]
  | e0 :: rest, st, i + 1, e => by
    intro h h1 h2
    have ih := enrichGo_skip_get env rest (enrichStep env st e0).2.1 i e (by simpa using h) h1 h2
    simp [enrichGo, ih.1, ih.2]

/-- The number of rows a pass works on is `min (len entries) 10`. -/
theorem truncated_length (entries : List LeagueEntry) :
    (if entries.length > 10 then entries.take 10 else entries).length =
      min entries.length 10 := by
  split
  · rw [List.length_take]
    omega
  · omega

theorem enrich_entries_length (env : EnrichEnv) (ns : NameState) (entries : List LeagueEntry) :
    (enrichLeagueEntriesNames env ns entries).entries.length = min entries.length 10 := by
  have h := (enrichGo_length env (if entries.length > 10 then entries.take 10 else entries)
      ⟨ns, 0, [], []⟩).1
  simpa [enrichLeagueEntriesNames, truncated_length] using h

/-- Every served row's tier value came from some input row. -/
theorem enrich_tier_mem (env : EnrichEnv) (ns : NameState) (entries : List LeagueEntry) :
    ∀ x ∈ (enrichLeagueEntriesNames env ns entries).entries, ∃ y ∈ entries, x.tier = y.tier := by
  intro x hx
  have hmap := enrichGo_tier_map env (if entries.length > 10 then entries.take 10 else entries)
      ⟨ns, 0, [], []⟩
  have hx2 : x.tier ∈ (enrichLeagueEntriesNames env ns entries).entries.map (fun y => y.tier) :=
    List.mem_map_of_mem _ hx
  rw [show (enrichLeagueEntriesNames env ns entries).entries =
        (enrichGo env (if entries.length > 10 then entries.take 10 else entries)
          ⟨ns, 0, [], []⟩).1 from rfl, hmap] at hx2
  obtain ⟨y, hy, hyt⟩ := List.mem_map.mp hx2
  refine ⟨y, ?_, hyt.symm⟩
  revert hy
  split
  · exact fun hy => List.take_subset _ _ hy
  · exact id

/-- C5: one enrichment pass performs at most `min(len(entries), 10)`
synchronous upstream account lookups; the final `lookups` counter equals
the number of rows whose step did an inline lookup, because the counter is
incremented in both the success and the failure branch and guards any
further inline lookup once it reaches 10. -/
theorem enrich_inline_lookups_le_min (env : EnrichEnv) (ns : NameState)
    (entries : List LeagueEntry) :
    (enrichLeagueEntriesNames env ns entries).lookups =
      (enrichLeagueEntriesNames env ns entries).actions.countP (fun a => a.inlineLookup) ∧
    (enrichLeagueEntriesNames env ns entries).lookups ≤ min entries.length 10 := by
  have hl := enrichGo_lookups env (if entries.length > 10 then entries.take 10 else entries)
      ⟨ns, 0, [], []⟩
  have hlen := (enrichGo_length env (if entries.length > 10 then entries.take 10 else entries)
      ⟨ns, 0, [], []⟩).2
  constructor
  · simpa [enrichLeagueEntriesNames] using hl
  · show (enrichGo env (if entries.length > 10 then entries.take 10 else entries)
        ⟨ns, 0, [], []⟩).2.2.lookups ≤ min entries.length 10
    rw [hl]
    calc 0 + ((enrichGo env (if entries.length > 10 then entries.take 10 else entries)
            ⟨ns, 0, [], []⟩).2.1.countP (fun a => a.inlineLookup))
        ≤ (enrichGo env (if entries.length > 10 then entries.take 10 else entries)
            ⟨ns, 0, [], []⟩).2.1.length := by
          simpa using List.countP_le_length _
      _ = min entries.length 10 := by rw [hlen, truncated_length]

/-! ## High-tier league theorems -/

/-- Serving a truncated, stamped, enriched row list yields at most 10 rows,
all carrying the stamped tier. -/
theorem stamped_enrich_spec (env : EnrichEnv) (ns : NameState) (es : List LeagueEntry)
    (t : String) :
    (enrichLeagueEntriesNames env ns
        ((truncateTop10 es).map (fun x => { x with tier := t }))).entries.length ≤ 10 ∧
    ∀ x ∈ (enrichLeagueEntriesNames env ns
        ((truncateTop10 es).map (fun x => { x with tier := t }))).entries, x.tier = t := by
  constructor
  · rw [enrich_entries_length]
    omega
  · intro x hx
    obtain ⟨y, hy, hxy⟩ := enrich_tier_mem env ns _ x hx
    obtain ⟨z, _, hz⟩ := List.mem_map.mp hy
    rw [hxy, ← hz]

theorem getHighTierLeague_spec (e : HighTierEnv) (t : String) (league : HighTierLeague)
    (h : getHighTierLeague e t = some league) :
    league.entries.length ≤ 10 ∧ ∀ x ∈ league.entries, x.tier = t := by
  unfold getHighTierLeague at h
  rcases hc : e.cached with _ | cachedLeague
  · rw [hc] at h
    rcases hu : e.upstream with _ | upLeague
    · rw [hu] at h
      exact absurd h (by simp)
    · rw [hu] at h
      obtain rfl := (Option.some.injEq _ _).mp h
      exact stamped_enrich_spec e.env e.ns upLeague.entries t
  · rw [hc] at h
    obtain rfl := (Option.some.injEq _ _).mp h
    exact stamped_enrich_spec e.env e.ns cachedLeague.entries t

/-- C2: every served high-tier league (challenger, grandmaster or master;
cache hit or fresh fetch) has at most 10 entries, and every entry's tier
field equals the enclosing tier constant. -/
theorem highTier_entries_le10_tier_stamped (e : HighTierEnv) :
    (∀ league, GetChallengerLeague e = some league →
      league.entries.length ≤ 10 ∧ ∀ x ∈ league.entries, x.tier = "CHALLENGER") ∧
    (∀ league, GetGrandmasterLeague e = some league →
      league.entries.length ≤ 10 ∧ ∀ x ∈ league.entries, x.tier = "GRANDMASTER") ∧
    (∀ league, GetMasterLeague e = some league →
      league.entries.length ≤ 10 ∧ ∀ x ∈ league.entries, x.tier = "MASTER") :=
  ⟨fun league h => getHighTierLeague_spec e "CHALLENGER" league h,
   fun league h => getHighTierLeague_spec e "GRANDMASTER" league h,
   fun league h => getHighTierLeague_spec e "MASTER" league h⟩

/-- Witness for C2: serving the cached 15-row challenger league yields the
10-row stamped league, which satisfies the invariant. -/
theorem highTier_entries_le10_tier_stamped_witness :
    GetChallengerLeague envCached15 = some chal15 ∧
    (chal15.entries.length ≤ 10 ∧ ∀ x ∈ chal15.entries, x.tier = "CHALLENGER") :=
  ⟨by decide, (highTier_entries_le10_tier_stamped envCached15).1 chal15 (by decide)⟩

/-- C10: the enrichment pass treats every surviving row whose name slot is
non-empty and differs from "Unknown" (which includes rows holding the
sentinel "Loading...") as resolved: the row is returned unchanged and no
cache lookup, inline lookup, async fetch or bus publication happens for
it. -/
theorem enrich_leaves_resolved_rows (env : EnrichEnv) (ns : NameState)
    (entries : List LeagueEntry) (i : Nat) (e : LeagueEntry)
    (hi : i < 10) (hget : entries[i]? = some e)
    (h1 : e.summonerName ≠ "") (h2 : e.summonerName ≠ "Unknown") :
    (enrichLeagueEntriesNames env ns entries).entries[i]? = some e ∧
    (enrichLeagueEntriesNames env ns entries).actions[i]? = some RowAction.noAction := by
  have htr : (if entries.length > 10 then entries.take 10 else entries)[i]? = some e := by
    split
    · rw [List.getElem?_take_of_lt hi]
      exact hget
    · exact hget
  exact enrichGo_skip_get env _ ⟨ns, 0, [], []⟩ i e htr h1 h2

/-- Witness for C10: a row already holding "Loading..." passes through a
pass with a failing upstream completely untouched. -/
theorem enrich_leaves_resolved_rows_witness :
    (0 < 10 ∧ [rowLoading][0]? = some rowLoading ∧
      rowLoading.summonerName ≠ "" ∧ rowLoading.summonerName ≠ "Unknown") ∧
    (enrichLeagueEntriesNames envFailing nsEmpty [rowLoading]).entries[0]? = some rowLoading ∧
    (enrichLeagueEntriesNames envFailing nsEmpty [rowLoading]).actions[0]? =
      some RowAction.noAction :=
  ⟨⟨by decide, by decide, by decide, by decide⟩,
   enrich_leaves_resolved_rows envFailing nsEmpty [rowLoading] 0 rowLoading
     (by decide) (by decide) (by decide) (by decide)⟩

/-! ## Divergence evaluations -/

set_option maxRecDepth 4000 in
/-- C3 failing input: the upstream serves a full 200-row page, yet the
served response carries only 10 rows (the enrichment helper truncates the
page to the top 10 before `HasMore` is computed) and `hasMore = false`. -/
theorem entries_page200_truncated :
    (GetLeagueEntries envPage200 "GOLD" "I" 2).map
        (fun r => (r.entries.length, r.hasMore, r.page)) = some (10, false, 2) := by
  decide

/-- C6 failing input: a row with an empty PUUID and an empty name slot is
passed through unchanged — its name stays "" rather than being set to
"Unknown" — with no cache lookup, no upstream call and no publication. -/
theorem enrich_empty_puuid_left_unchanged :
    (enrichLeagueEntriesNames envFailing nsEmpty [rowNoPuuid]).entries = [rowNoPuuid] ∧
    (enrichLeagueEntriesNames envFailing nsEmpty [rowNoPuuid]).actions = [RowAction.noAction] ∧
    rowNoPuuid.summonerName = "" ∧ rowNoPuuid.summonerName ≠ "Unknown" := by
  decide

/-- C7 failing input: eleven unnamed rows with distinct PUUIDs against an
empty cache and a failing upstream.  The pass truncates to 10 rows (so the
lookup-budget branch is unreachable), performs 10 inline lookups, never
writes "Loading..." into any row, publishes nothing on the bus, and spawns
10 direct-fetch goroutines instead. -/
theorem enrich_spillover_no_loading_no_publish :
    (enrichLeagueEntriesNames envFailing nsEmpty entriesEleven).entries.length = 10 ∧
    ((enrichLeagueEntriesNames envFailing nsEmpty entriesEleven).entries.all
        (fun x => x.summonerName = "")) = true ∧
    (enrichLeagueEntriesNames envFailing nsEmpty entriesEleven).busPublished = [] ∧
    (enrichLeagueEntriesNames envFailing nsEmpty entriesEleven).lookups = 10 ∧
    (enrichLeagueEntriesNames envFailing nsEmpty entriesEleven).asyncSpawned.length = 10 := by
  decide

/-! ## Name cache lemmas -/

theorem hashStr_ne_empty (g t : String) : g ++ "#" ++ t ≠ "" := by
  intro h
  have h2 := congrArg String.length h
  rw [String.length_append, String.length_append] at h2
  have e : ("#" : String).length = 1 := by decide
  have e0 : ("" : String).length = 0 := by decide
  rw [e, e0] at h2
  omega

theorem hashStr_ne_loading (g t : String) : g ++ "#" ++ t ≠ "Loading..." := by
  intro h
  have h2 := congrArg String.data h
  rw [String.data_append, String.data_append] at h2
  have hm : '#' ∈ g.data ++ ("#" : String).data ++ t.data := by
    have hx : '#' ∈ ("#" : String).data := by decide
    exact List.mem_append.mpr (Or.inl (List.mem_append.mpr (Or.inr hx)))
  rw [h2] at hm
  have hn : '#' ∉ ("Loading..." : String).data := by decide
  exact hn hm

/-- A lookup that returns no usable name leaves the state untouched. -/
theorem getSummonerName_miss (ns : NameState) (p : String)
    (h : (getSummonerName ns p).1.getD "" = "") :
    getSummonerName ns p = (none, ns) := by
  revert h
  unfold getSummonerName
  repeat' split
  all_goals intro h
  all_goals first | rfl | (exfalso; simp_all)

/-- Repeating a lookup on the state the lookup returned gives the same
answer and the same state (the only write a lookup makes is the fast-tier
repopulation, which the repeated lookup then hits). -/
theorem getSummonerName_dbPath (ns : NameState) (p : String)
    (hrv : (if ns.cacheEnabled then
              match ns.redisNames (nameKey p) with
              | some n => if n ≠ "" ∧ n ≠ "Loading..." then some n else none
              | none => none
            else none) = (none : Option String)) :
    getSummonerName (getSummonerName ns p).2 p = getSummonerName ns p := by
  by_cases hd : ns.dbEnabled = true
  · cases hdb : ns.db p with
    | some row =>
      have hne : row.gameName ++ "#" ++ row.tagLine ≠ "" := hashStr_ne_empty _ _
      have e : getSummonerName ns p =
          (some (row.gameName ++ "#" ++ row.tagLine),
           if ns.cacheEnabled then
             writeRedisName ns p (row.gameName ++ "#" ++ row.tagLine) 86400
           else ns) := by
        simp only [getSummonerName]
        rw [hrv]
        simp [hd, dbGetSummonerName, hdb, hne]
      rw [e]
      by_cases hc : ns.cacheEnabled = true
      · simp only [hc, if_true]
        simp [getSummonerName, writeRedisName, hc, hashStr_ne_empty, hashStr_ne_loading,
          hd, dbGetSummonerName, hdb]
      · have hcf : ns.cacheEnabled = false := by simpa using hc
        simp only [hcf, Bool.false_eq_true, if_false]
        rw [e]
        simp [hcf]
    | none =>
      have e : getSummonerName ns p = (none, ns) := by
        simp only [getSummonerName]
        rw [hrv]
        simp [hd, dbGetSummonerName, hdb]
      rw [e]
      exact e
  · have e : getSummonerName ns p = (none, ns) := by
      simp only [getSummonerName]
      rw [hrv]
      simp [hd]
    rw [e]
    exact e

theorem getSummonerName_stable (ns : NameState) (p : String) :
    getSummonerName (getSummonerName ns p).2 p = getSummonerName ns p := by
  by_cases hc : ns.cacheEnabled = true
  · cases hr : ns.redisNames (nameKey p) with
    | some n =>
      by_cases hf : n ≠ "" ∧ n ≠ "Loading..."
      · have e : getSummonerName ns p = (some n, ns) := by
          simp [getSummonerName, hc, hr, hf]
        rw [e]
        exact e
      · refine getSummonerName_dbPath ns p ?_
        simp [hc, hr, hf]
    | none =>
      refine getSummonerName_dbPath ns p ?_
      simp [hc, hr]
  · refine getSummonerName_dbPath ns p ?_
    simp [hc]

/-- A write never changes the tier-enable flags. -/
theorem setSummonerName_flags (ns : NameState) (p full : String) :
    (setSummonerName ns p full).cacheEnabled = ns.cacheEnabled ∧
    (setSummonerName ns p full).dbEnabled = ns.dbEnabled := by
  simp only [setSummonerName, dbSetSummonerName, writeRedisName]
  repeat' split
  all_goals exact ⟨rfl, rfl⟩

theorem setSummonerName_redis (ns : NameState) (p full : String)
    (hc : ns.cacheEnabled = true) :
    (setSummonerName ns p full).redisNames (nameKey p) = some full ∧
    (setSummonerName ns p full).redisTtl (nameKey p) = some 86400 := by
  simp only [setSummonerName, dbSetSummonerName, writeRedisName, hc, if_true]
  split
  all_goals simp

theorem setSummonerName_db (ns : NameState) (p full : String)
    (hd : ns.dbEnabled = true) :
    (setSummonerName ns p full).db p =
      some ⟨(parseName full).1, (parseName full).2, "", "BR1"⟩ := by
  simp only [setSummonerName, dbSetSummonerName, writeRedisName]
  split
  all_goals simp_all

/-- With both tiers disabled, a write is a no-op. -/
theorem setSummonerName_disabled (ns : NameState) (p full : String)
    (hc : ns.cacheEnabled = false) (hd : ns.dbEnabled = false) :
    setSummonerName ns p full = ns := by
  simp [setSummonerName, dbSetSummonerName, hc, hd]

theorem buildFullName_ne_empty (a : AccountData) (h : a.gameName ≠ "") :
    buildFullName a ≠ "" := by
  unfold buildFullName
  split
  · exact hashStr_ne_empty a.gameName a.tagLine
  · exact h

/-- Looking a name up right after writing it hits (through the fast tier
when caching is on, through the durable tier otherwise) and leaves the
written state unchanged. -/
theorem getSummonerName_after_set (ns : NameState) (p full : String)
    (hne : full ≠ "") (hnl : full ≠ "Loading...")
    (hcd : ns.cacheEnabled = true ∨ ns.dbEnabled = true) :
    ∃ m, m ≠ "" ∧ getSummonerName (setSummonerName ns p full) p =
      (some m, setSummonerName ns p full) := by
  by_cases hc : ns.cacheEnabled = true
  · refine ⟨full, hne, ?_⟩
    have hfc : (setSummonerName ns p full).cacheEnabled = true := by
      rw [(setSummonerName_flags ns p full).1, hc]
    have hfr := (setSummonerName_redis ns p full hc).1
    simp [getSummonerName, hfc, hfr, hne, hnl]
  · have hd : ns.dbEnabled = true := hcd.resolve_left hc
    refine ⟨(parseName full).1 ++ "#" ++ (parseName full).2, hashStr_ne_empty _ _, ?_⟩
    have hfc : (setSummonerName ns p full).cacheEnabled = false := by
      rw [(setSummonerName_flags ns p full).1]
      simpa using hc
    have hfd : (setSummonerName ns p full).dbEnabled = true := by
      rw [(setSummonerName_flags ns p full).2, hd]
    have hfdb := setSummonerName_db ns p full hd
    simp [getSummonerName, hfc, hfd, dbGetSummonerName, hfdb, hashStr_ne_empty]


/-! ## Name split lemmas -/

theorem splitLastHash_none_iff : ∀ (cs : List Char), splitLastHash cs = none ↔ '#' ∉ cs
  | [] => by simp [splitLastHash]
  | c :: rest => by
    have ih := splitLastHash_none_iff rest
    simp only [splitLastHash]
    cases hr : splitLastHash rest with
    | some p =>
      obtain ⟨g, t⟩ := p
      constructor
      · intro h
        cases h
      · intro h
        exfalso
        have hmem : '#' ∉ rest := fun hm => h (List.mem_cons_of_mem _ hm)
        have h0 := ih.mpr hmem
        rw [h0] at hr
        cases hr
    | none =>
      by_cases hc : c = '#'
      · subst hc
        simp [List.mem_cons]
      · have hrest := ih.mp hr
        simp [hc, List.mem_cons, hrest, Ne.symm hc]

theorem splitLastHash_some : ∀ (cs g t : List Char), splitLastHash cs = some (g, t) →
    cs = g ++ '#' :: t ∧ '#' ∉ t
  | [], g, t => by intro h; cases h
  | c :: rest, g, t => by
    intro h
    simp only [splitLastHash] at h
    cases hr : splitLastHash rest with
    | some p =>
      obtain ⟨g2, t2⟩ := p
      rw [hr] at h
      rw [Option.some.injEq, Prod.mk.injEq] at h
      obtain ⟨hg, ht⟩ := h
      have ih := splitLastHash_some rest g2 t2 hr
      subst hg
      subst ht
      exact ⟨by rw [List.cons_append, ih.1], ih.2⟩
    | none =>
      rw [hr] at h
      by_cases hc : c = '#'
      · rw [if_pos hc] at h
        rw [Option.some.injEq, Prod.mk.injEq] at h
        obtain ⟨hg, ht⟩ := h
        subst hc
        subst ht
        rw [← hg]
        exact ⟨rfl, (splitLastHash_none_iff rest).mp hr⟩
      · rw [if_neg hc] at h
        cases h

theorem parseName_no_hash (name : String) (h : '#' ∉ name.data) :
    parseName name = (name, "BR1") := by
  unfold parseName splitName
  rw [(splitLastHash_none_iff name.data).mpr h]

theorem parseName_last_hash (name : String) (h : '#' ∈ name.data) :
    name.data = (parseName name).1.data ++ '#' :: (parseName name).2.data ∧
    '#' ∉ (parseName name).2.data := by
  cases hs : splitLastHash name.data with
  | none =>
    exact absurd h (fun hm => ((splitLastHash_none_iff name.data).mp hs) hm)
  | some p =>
    obtain ⟨g, t⟩ := p
    have hsp := splitLastHash_some name.data g t hs
    unfold parseName splitName
    rw [hs]
    exact ⟨hsp.1, hsp.2⟩


/-! ## Claim theorems for the name write path and the worker -/

/-- C9 counterexample: the durable-tier tag written for a hash-free name is
the literal "BR1" and does not follow the configured home region: with
`RIOT_REGION = "NA1"` the source still writes tag "BR1", diverging from the
spec-modelled `parseNameSpec`. -/
theorem setName_tag_ignores_config :
    parseName "Alice" ≠ parseNameSpec ⟨"NA1"⟩ "Alice" ∧
    ¬ ∀ cfg : Config, ((setSummonerName nsEmpty "P" "Alice").db "P").map
        (fun r => r.tagLine) = some cfg.riotRegion :=
  ⟨by decide, fun h => absurd (h ⟨"NA1"⟩) (by decide)⟩

/-- C9 (amended): `set_name` writes the fast tier under the summoner-name
key with a 24 h TTL and upserts the durable tier keyed by the PUUID; the
durable representation splits the name at the last `#`, and a name without
`#` becomes the whole game name with the literal tag "BR1" (the reference
deployment home region; the configuration is not consulted). -/
theorem setSummonerName_splits_last_hash (ns : NameState) (p name : String)
    (hc : ns.cacheEnabled = true) (hd : ns.dbEnabled = true) :
    (setSummonerName ns p name).redisNames (nameKey p) = some name ∧
    (setSummonerName ns p name).redisTtl (nameKey p) = some 86400 ∧
    (setSummonerName ns p name).db p =
      some ⟨(parseName name).1, (parseName name).2, "", "BR1"⟩ ∧
    ('#' ∉ name.data → parseName name = (name, "BR1")) ∧
    ('#' ∈ name.data →
      name.data = (parseName name).1.data ++ '#' :: (parseName name).2.data ∧
      '#' ∉ (parseName name).2.data) :=
  ⟨(setSummonerName_redis ns p name hc).1, (setSummonerName_redis ns p name hc).2,
   setSummonerName_db ns p name hd, parseName_no_hash name, parseName_last_hash name⟩

/-- Witness for C9 (amended): writing "Alice#BR1" for PUUID "P". -/
theorem setSummonerName_splits_last_hash_witness :
    (nsEmpty.cacheEnabled = true ∧ nsEmpty.dbEnabled = true) ∧
    ((setSummonerName nsEmpty "P" "Alice#BR1").redisNames (nameKey "P") = some "Alice#BR1" ∧
      (setSummonerName nsEmpty "P" "Alice#BR1").redisTtl (nameKey "P") = some 86400 ∧
      (setSummonerName nsEmpty "P" "Alice#BR1").db "P" =
        some ⟨(parseName "Alice#BR1").1, (parseName "Alice#BR1").2, "", "BR1"⟩ ∧
      ('#' ∉ ("Alice#BR1" : String).data → parseName "Alice#BR1" = ("Alice#BR1", "BR1")) ∧
      ('#' ∈ ("Alice#BR1" : String).data →
        ("Alice#BR1" : String).data =
          (parseName "Alice#BR1").1.data ++ '#' :: (parseName "Alice#BR1").2.data ∧
        '#' ∉ (parseName "Alice#BR1").2.data)) :=
  ⟨⟨rfl, rfl⟩, setSummonerName_splits_last_hash nsEmpty "P" "Alice#BR1" rfl rfl⟩

/-- C8 counterexample: with the upstream answering the account name
"Loading..." (no tag), the second application of the name-fetch handler
rewrites the fast tier from the durable tier as "Loading...#BR1", so the
cache after two applications differs from the cache after one. -/
theorem nameWorker_not_idempotent_on_loading :
    processSummonerNameTask acctLoading taskP
        (processSummonerNameTask acctLoading taskP nsEmpty) ≠
      processSummonerNameTask acctLoading taskP nsEmpty := by
  intro h
  have h2 := congrArg (fun s => s.redisNames (nameKey "P")) h
  revert h2
  decide

/-- C8 (amended): the name-fetch handler is idempotent on the name cache
for every envelope whose fetched account data does not compose to the
literal fast-tier placeholder "Loading..." (for that single value the
second application rewrites the fast tier from the durable tier). -/
theorem nameWorker_idempotent (acct : String → Option AccountData)
    (task : SummonerNameTask) (ns : NameState)
    (hul : ∀ a, acct task.puuid = some a → a.gameName ≠ "" →
      buildFullName a ≠ "Loading...") :
    processSummonerNameTask acct task (processSummonerNameTask acct task ns) =
      processSummonerNameTask acct task ns := by
  by_cases hskip : ((getSummonerName ns task.puuid).1.getD "") ≠ ""
  · have e1 : processSummonerNameTask acct task ns = (getSummonerName ns task.puuid).2 := by
      simp [processSummonerNameTask, shouldSkipTask, hskip]
    rw [e1]
    have hst := getSummonerName_stable ns task.puuid
    simp [processSummonerNameTask, shouldSkipTask, hst, hskip]
  · have hgd : (getSummonerName ns task.puuid).1.getD "" = "" := by
      by_contra hh
      exact hskip hh
    have hmiss := getSummonerName_miss ns task.puuid hgd
    have e1 : processSummonerNameTask acct task ns =
        (match acct task.puuid with
         | none => ns
         | some a => cacheSummonerName a task.puuid ns) := by
      simp [processSummonerNameTask, shouldSkipTask, hmiss]
    rcases ha : acct task.puuid with _ | a
    · have e2 : processSummonerNameTask acct task ns = ns := by rw [e1, ha]
      rw [e2]
      exact e2
    · by_cases hg : a.gameName ≠ ""
      · have hnl : buildFullName a ≠ "Loading..." := hul a ha hg
        have hne : buildFullName a ≠ "" := buildFullName_ne_empty a hg
        have e2 : processSummonerNameTask acct task ns =
            setSummonerName ns task.puuid (buildFullName a) := by
          rw [e1, ha]
          simp [cacheSummonerName, hg]
        by_cases hcd : ns.cacheEnabled = true ∨ ns.dbEnabled = true
        · obtain ⟨m, hm, hgm⟩ :=
            getSummonerName_after_set ns task.puuid (buildFullName a) hne hnl hcd
          rw [e2]
          simp [processSummonerNameTask, shouldSkipTask, hgm, hm]
        · push_neg at hcd
          have hcf : ns.cacheEnabled = false := by simpa using hcd.1
          have hdf : ns.dbEnabled = false := by simpa using hcd.2
          have e3 : processSummonerNameTask acct task ns = ns := by
            rw [e2, setSummonerName_disabled ns task.puuid (buildFullName a) hcf hdf]
          rw [e3]
          exact e3
      · have e2 : processSummonerNameTask acct task ns = ns := by
          rw [e1, ha]
          simp [cacheSummonerName, hg]
        rw [e2]
        exact e2

/-- Witness for C8 (amended): a normal account "Alice#BR1" processed twice
from the empty cache. -/
theorem nameWorker_idempotent_witness :
    (∀ a, acctAlice taskP.puuid = some a → a.gameName ≠ "" →
      buildFullName a ≠ "Loading...") ∧
    processSummonerNameTask acctAlice taskP
        (processSummonerNameTask acctAlice taskP nsEmpty) =
      processSummonerNameTask acctAlice taskP nsEmpty := by
  have h : ∀ a, acctAlice taskP.puuid = some a → a.gameName ≠ "" →
      buildFullName a ≠ "Loading..." := by
    intro a hha hg
    simp only [acctAlice, Option.some.injEq] at hha
    rw [← hha]
    decide
  exact ⟨h, nameWorker_idempotent acctAlice taskP nsEmpty h⟩

end TftCore


